import Mathlib

/-!
Verification development for the chunked semantic retrieval pipeline
(`backend/vector_search.py`, `backend/embeddings.py`, `backend/epub_extractor.py`).

Modelling conventions:
* numpy float arrays are modelled over `ℝ` (`List ℝ` for a vector, a
  rectangular `NpMatrix` for a 2-D array); float32 rounding is not modelled.
* `np.linalg.norm(v)` is `Real.sqrt (dot v v)`.
* the FAISS `IndexFlatIP` backend is modelled as exact top-k inner-product
  search: score every stored vector, sort descending (stable, so ties go to
  the lower handle, as the spec pins down), take the first `k` (clamped at 0
  for `k ≤ 0`).
* Python exceptions are `Except PyError`.
* pickled metadata dicts are opaque association lists (`Metadata`); the empty
  dict is `[]`.
* the external sentence-transformers model is an abstract function
  `String → List ℝ` carried by `EmbeddingsGenerator`.
-/

namespace CalibreLib

/-- Python exceptions raised by the modelled code paths. -/
inductive PyError where
  | valueError
  | fileNotFoundError
  | indexError
deriving DecidableEq

/-- An opaque metadata dict; the empty dict is `[]`. -/
abbrev Metadata := List (String × String)

/-- Inner product of two real vectors (`np.dot` / FAISS inner product). -/
def dot (v w : List ℝ) : ℝ := (List.zipWith (fun a b => a * b) v w).sum

/-- L2 norm of a vector, `np.linalg.norm(v)`. -/
noncomputable def l2norm (v : List ℝ) : ℝ := Real.sqrt (dot v v)

/-- One row of `VectorIndex.normalize_vectors`: divide by the row norm, with a
zero norm replaced by 1 (`norms = np.where(norms == 0, 1, norms)`). -/
noncomputable def normalizeVector (v : List ℝ) : List ℝ :=
  let n := l2norm v
  let n1 := if n = 0 then 1 else n
  v.map (fun x => x / n1)

/-- `VectorIndex.normalize_vectors`, row by row. -/
noncomputable def normalize_vectors (vs : List (List ℝ)) : List (List ℝ) :=
  vs.map normalizeVector

/-- A 2-D numpy array: a rectangular list of rows whose common row length is
`shape[1]` (`ncols`). -/
structure NpMatrix where
  rows : List (List ℝ)
  ncols : ℕ
  rect : ∀ r ∈ rows, r.length = ncols

/-- State of `VectorIndex`: the construction-time `self.dimension`, the FAISS
index object's own dimension (`self.index.d`, set by `_create_index` or by
`faiss.read_index`), the stored (normalized) vectors, and the parallel
`self.metadata` list. -/
structure VectorIndex where
  dimension : ℕ
  indexDim : ℕ
  vectors : List (List ℝ)
  metadata : List Metadata

/-- `VectorIndex.__init__` / `_create_index`: empty index of the given
dimension. -/
def VectorIndex.init (d : ℕ) : VectorIndex :=
  { dimension := d, indexDim := d, vectors := [], metadata := [] }

/-- `self.index.ntotal`. -/
def VectorIndex.count (idx : VectorIndex) : ℕ := idx.vectors.length

/-- `VectorIndex.add_vectors`: reject a batch whose `shape[1]` differs from
`self.dimension` (`ValueError`), otherwise append the normalized rows and
extend `self.metadata` — by the given list when it is truthy (non-empty),
else by one empty dict per row. -/
noncomputable def VectorIndex.add_vectors (idx : VectorIndex) (m : NpMatrix)
    (md : Option (List Metadata)) : Except PyError VectorIndex :=
  if m.ncols ≠ idx.dimension then .error .valueError
  else
    let normalized := normalize_vectors m.rows
    let newMeta : List Metadata :=
      match md with
      | some l => if l = [] then List.replicate m.rows.length [] else l
      | none => List.replicate m.rows.length []
    .ok { idx with vectors := idx.vectors ++ normalized,
                   metadata := idx.metadata ++ newMeta }

/-- Exact top-k inner-product search of the FAISS flat index: score each
stored vector against the (already normalized) query, sort the
`(handle, similarity)` pairs descending by similarity (stable, ties to the
lower handle), and keep the first `k` (none for `k ≤ 0`). -/
noncomputable def faissTopK (stored : List (List ℝ)) (q : List ℝ) (k : ℤ) :
    List (ℕ × ℝ) :=
  let scored := stored.enum.map (fun p => (p.1, dot q p.2))
  (List.insertionSort (fun a b : ℕ × ℝ => b.2 ≤ a.2) scored).take k.toNat

/-- `VectorIndex.search`: empty result on an empty index, otherwise normalize
the query, clamp `k` to `ntotal`, and run the flat inner-product search.
Returns `(handle, similarity)` pairs. -/
noncomputable def VectorIndex.search (idx : VectorIndex) (q : List ℝ) (k : ℤ) :
    List (ℕ × ℝ) :=
  if idx.count = 0 then []
  else faissTopK idx.vectors (normalizeVector q) (min k (idx.count : ℤ))

/-- One entry of `search_with_metadata`'s result: `'similarity'`, `'index'`,
and the merged metadata dict. -/
structure SearchResult where
  similarity : ℝ
  index : ℕ
  meta : Metadata

/-- The result-building loop of `search_with_metadata`: walk the
`(handle, similarity)` pairs in order, looking each handle up in the
metadata list (`self.metadata[idx]`); a handle outside the list raises
`IndexError`, aborting the loop. -/
def mergeResults (metadata : List Metadata) :
    List (ℕ × ℝ) → Except PyError (List SearchResult)
  | [] => .ok []
  | p :: rest =>
    match metadata.get? p.1 with
    | some md =>
      match mergeResults metadata rest with
      | .ok rs => .ok ({ similarity := p.2, index := p.1, meta := md } :: rs)
      | .error e => .error e
    | none => .error .indexError

/-- `VectorIndex.search_with_metadata`: run `search`, then merge each hit
with its stored metadata record. -/
noncomputable def VectorIndex.search_with_metadata (idx : VectorIndex)
    (q : List ℝ) (k : ℤ) : Except PyError (List SearchResult) :=
  mergeResults idx.metadata (idx.search q k)

/-- The persisted FAISS index file (`<name>.faiss`): the index's own
dimension and the stored vectors. -/
structure FaissFile where
  d : ℕ
  vecs : List (List ℝ)

/-- The pickled metadata side-table (`<name>.meta`): the saved dimension and
the saved metadata list. -/
structure MetaFile where
  dimension : ℕ
  metadata : List Metadata

/-- The two on-disk artifacts a `load` call may find. -/
structure Disk where
  faissFile : Option FaissFile
  metaFile : Option MetaFile

/-- `VectorIndex.load`: raise `FileNotFoundError` when the `.faiss` file is
absent; otherwise replace the index contents from it. When the `.meta` file
exists, overwrite `self.dimension` and `self.metadata` from it; when it does
not, leave both fields untouched. -/
def VectorIndex.load (idx : VectorIndex) (disk : Disk) :
    Except PyError VectorIndex :=
  match disk.faissFile with
  | none => .error .fileNotFoundError
  | some f =>
    let idx1 : VectorIndex :=
      { idx with indexDim := f.d, vectors := f.vecs }
    match disk.metaFile with
    | none => .ok idx1
    | some m => .ok { idx1 with dimension := m.dimension, metadata := m.metadata }

/-- The external sentence-transformers model, abstracted: its embedding
dimension and its encoding function. -/
structure EmbeddingsGenerator where
  embedding_dim : ℕ
  model : String → List ℝ

/-- Python truthiness test `not text or not text.strip()`: the text is empty
or consists of whitespace only (so that stripping it leaves the empty
string). -/
def isBlankText (t : String) : Bool := t = "" || t.toList.all Char.isWhitespace

/-- `EmbeddingsGenerator.encode_text`: the zero vector for empty or
whitespace-only text, the model's embedding otherwise. -/
def EmbeddingsGenerator.encode_text (g : EmbeddingsGenerator) (t : String) :
    List ℝ :=
  if isBlankText t then List.replicate g.embedding_dim 0
  else g.model t

/-- Scatter step of `encode_batch`: `result[valid_idx] = embeddings[i]` for
each assignment, left to right. -/
def scatter (base : List (List ℝ)) (assignments : List (ℕ × List ℝ)) :
    List (List ℝ) :=
  assignments.foldl (fun acc p => acc.set p.1 p.2) base

/-- The `valid_indices` local of `encode_batch`: positions of the non-blank
texts. -/
def valid_indices (texts : List String) : List ℕ :=
  ((texts.enum).filter (fun p => !isBlankText p.2)).map Prod.fst

/-- The `valid_texts` local of `encode_batch`: the non-blank texts
themselves, picked out by position. -/
def valid_texts (texts : List String) : List String :=
  (valid_indices texts).map (fun i => texts.getD i "")

/-- `EmbeddingsGenerator.encode_batch`: `np.array([])` for no texts; the
all-zero matrix when every text is blank; otherwise embed the non-blank
texts and scatter them into a zero matrix at their original positions. -/
def EmbeddingsGenerator.encode_batch (g : EmbeddingsGenerator)
    (texts : List String) : List (List ℝ) :=
  if texts = [] then []
  else if valid_texts texts = [] then
    List.replicate texts.length (List.replicate g.embedding_dim 0)
  else
    scatter (List.replicate texts.length (List.replicate g.embedding_dim 0))
      ((valid_indices texts).zip ((valid_texts texts).map g.model))

/-- `SearchEngine` state: the embeddings generator and the vector index. -/
structure SearchEngine where
  generator : EmbeddingsGenerator
  index : VectorIndex

/-- `SearchEngine.search`: embed the query, delegate to
`search_with_metadata`, and, only when `min_similarity > 0`, keep the entries
with `similarity >= min_similarity`. -/
noncomputable def SearchEngine.search (eng : SearchEngine) (query : String)
    (k : ℤ) (min_similarity : ℝ) : Except PyError (List SearchResult) :=
  match eng.index.search_with_metadata (eng.generator.encode_text query) k with
  | .error e => .error e
  | .ok results =>
    .ok (if 0 < min_similarity then
           results.filter (fun r => min_similarity ≤ r.similarity)
         else results)

/-- Python `text.split()`: split on whitespace runs, dropping the empty
pieces. -/
def pySplit (text : String) : List String :=
  (text.split Char.isWhitespace).filter (fun w => w ≠ "")

/-- Python `' '.join(words)`. -/
def joinSpace (words : List String) : String :=
  String.intercalate " " words

/-- The loop of `EPUBExtractor.chunk_text`: for `i in
range(0, len(words), step)` emit `' '.join(words[i:i+csize])` when that
string is non-empty. (The `0 < step` guard matches Python, where
`chunk_size - overlap ≤ 0` never yields a plain iteration of this loop.) -/
def chunkLoop (words : List String) (csize step i : ℕ) : List String :=
  if h : 0 < step ∧ i < words.length then
    (if joinSpace ((words.drop i).take csize) ≠ "" then
      [joinSpace ((words.drop i).take csize)] else []) ++
    chunkLoop words csize step (i + step)
  else []
termination_by words.length - i
decreasing_by omega

/-- `EPUBExtractor.chunk_text`: split into words and emit overlapping word
windows of size `chunk_size` with stride `chunk_size - overlap`. -/
def chunk_text (text : String) (chunk_size overlap : ℕ) : List String :=
  chunkLoop (pySplit text) chunk_size (chunk_size - overlap) 0

/-- The `(start, stop)` word-position windows walked by `chunkLoop`. -/
def chunkWindows (len csize step i : ℕ) : List (ℕ × ℕ) :=
  if h : 0 < step ∧ i < len then
    (i, min (i + csize) len) :: chunkWindows len csize step (i + step)
  else []
termination_by len - i
decreasing_by omega

/-! ### Basic lemmas about `add_vectors` and normalization -/

theorem normalize_vectors_length (vs : List (List ℝ)) :
    (normalize_vectors vs).length = vs.length := by
  simp [normalize_vectors]

/-- Evaluation of `add_vectors` when the dimension check passes. -/
theorem add_vectors_ok (idx : VectorIndex) (m : NpMatrix)
    (md : Option (List Metadata)) (h : m.ncols = idx.dimension) :
    idx.add_vectors m md = .ok { idx with
      vectors := idx.vectors ++ normalize_vectors m.rows,
      metadata := idx.metadata ++ (match md with
        | some l => if l = [] then List.replicate m.rows.length [] else l
        | none => List.replicate m.rows.length []) } := by
  simp [VectorIndex.add_vectors, h]

theorem dot_replicate_zero (d : ℕ) (w : List ℝ) : dot (List.replicate d 0) w = 0 := by
  induction d generalizing w with
  | zero => simp [dot]
  | succ n ih =>
    cases w with
    | nil => simp [dot]
    | cons b bs =>
      rw [List.replicate_succ]
      show (List.zipWith (fun a b => a * b) (0 :: List.replicate n 0) (b :: bs)).sum = 0
      rw [List.zipWith_cons_cons, List.sum_cons, zero_mul, zero_add]
      exact ih bs

theorem l2norm_replicate_zero (d : ℕ) : l2norm (List.replicate d 0) = 0 := by
  simp [l2norm, dot_replicate_zero]

theorem normalizeVector_replicate_zero (d : ℕ) :
    normalizeVector (List.replicate d 0) = List.replicate d 0 := by
  simp [normalizeVector, l2norm_replicate_zero]

/-! ### Concrete batches used by the witnesses -/

/-- A concrete 1×1 batch. -/
def matA : NpMatrix :=
  ⟨[[1]], 1, by intro r hr; rw [List.mem_singleton] at hr; subst hr; rfl⟩

/-- A concrete 2×1 batch. -/
def matB : NpMatrix :=
  ⟨[[2], [3]], 1, by intro r hr; simp at hr; rcases hr with h | h <;> subst h <;> rfl⟩

/-- An empty batch of shape `(0, 1)`. -/
def matE1 : NpMatrix := ⟨[], 1, by intro r hr; cases hr⟩

/-- An empty batch of shape `(0, 2)`. -/
def matE2 : NpMatrix := ⟨[], 2, by intro r hr; cases hr⟩

/-! ### C1 -/

/-- C1: starting from a fresh index, three `add_vectors` batches of sizes
`a`, `b`, `c` occupy handles `0..a-1`, `a..a+b-1`, `a+b..a+b+c-1` in strict
insertion order (the stored vector list is the concatenation of the three
normalized batches), and the count after the calls is `a + b + c`; handles
are dense positions in that list, so none is reused or skipped. -/
theorem handle_density (d a b c : ℕ) (m1 m2 m3 : NpMatrix)
    (h1 : m1.ncols = d) (h2 : m2.ncols = d) (h3 : m3.ncols = d)
    (ha : m1.rows.length = a) (hb : m2.rows.length = b) (hc : m3.rows.length = c) :
    ∃ i1 i2 i3 : VectorIndex,
      (VectorIndex.init d).add_vectors m1 none = .ok i1 ∧
      i1.add_vectors m2 none = .ok i2 ∧
      i2.add_vectors m3 none = .ok i3 ∧
      i1.vectors = normalize_vectors m1.rows ∧
      i2.vectors = normalize_vectors m1.rows ++ normalize_vectors m2.rows ∧
      i3.vectors = (normalize_vectors m1.rows ++ normalize_vectors m2.rows) ++
        normalize_vectors m3.rows ∧
      i1.count = a ∧ i2.count = a + b ∧ i3.count = a + b + c := by
  refine ⟨_, _, _, add_vectors_ok _ _ _ h1, add_vectors_ok _ _ _ h2,
    add_vectors_ok _ _ _ h3, ?_, ?_, ?_, ?_, ?_, ?_⟩ <;>
    simp [VectorIndex.init, VectorIndex.count, normalize_vectors_length,
      ha, hb, hc, List.append_assoc] <;> omega

/-- Witness for C1 at batches of sizes 1, 2, 0 over a fresh 1-dimensional
index. -/
theorem handle_density_witness :
    matA.rows.length = 1 ∧ matB.rows.length = 2 ∧ matE1.rows.length = 0 ∧
    ∃ i1 i2 i3 : VectorIndex,
      (VectorIndex.init 1).add_vectors matA none = .ok i1 ∧
      i1.add_vectors matB none = .ok i2 ∧
      i2.add_vectors matE1 none = .ok i3 ∧
      i1.vectors = normalize_vectors matA.rows ∧
      i2.vectors = normalize_vectors matA.rows ++ normalize_vectors matB.rows ∧
      i3.vectors = (normalize_vectors matA.rows ++ normalize_vectors matB.rows) ++
        normalize_vectors matE1.rows ∧
      i1.count = 1 ∧ i2.count = 1 + 2 ∧ i3.count = 1 + 2 + 0 :=
  ⟨rfl, rfl, rfl, handle_density 1 1 2 0 matA matB matE1 rfl rfl rfl rfl rfl rfl⟩

/-! ### C7 -/

/-- C7: an `add_vectors` call with an empty, well-shaped batch (and no or
empty per-vector metadata) is a no-op: it returns successfully and leaves the
index — vector count and stored metadata included — exactly unchanged, so no
handle is assigned. -/
theorem empty_batch_noop (idx : VectorIndex) (m : NpMatrix)
    (md : Option (List Metadata)) (hrows : m.rows = [])
    (hcols : m.ncols = idx.dimension) (hmd : md = none ∨ md = some []) :
    idx.add_vectors m md = .ok idx := by
  have e := add_vectors_ok idx m md hcols
  rcases hmd with h | h <;> subst h <;> simpa [hrows, normalize_vectors] using e

/-- Witness for C7: the empty batch on a fresh 2-dimensional index. -/
theorem empty_batch_noop_witness :
    matE2.rows = [] ∧
    (VectorIndex.init 2).add_vectors matE2 none = .ok (VectorIndex.init 2) :=
  ⟨rfl, empty_batch_noop (VectorIndex.init 2) matE2 none rfl rfl (Or.inl rfl)⟩

/-! ### C8 -/

/-- C8: `add_vectors` stores each input row normalized by
`normalize_vectors`; a row of norm ≠ 0 is divided by its L2 norm, the
all-zero vector has L2 norm 0 and is left unchanged by the normalization
(the `np.where(norms == 0, 1, norms)` guard, so no division by zero), and
the inner product — hence the cosine similarity — of the zero vector with
any vector is 0. -/
theorem zero_vector_norm_safety (d : ℕ) (v w : List ℝ) (idx : VectorIndex)
    (m : NpMatrix) (md : Option (List Metadata)) (hcols : m.ncols = idx.dimension) :
    (l2norm v ≠ 0 → normalizeVector v = v.map (fun x => x / l2norm v)) ∧
    normalizeVector (List.replicate d 0) = List.replicate d 0 ∧
    dot (List.replicate d 0) w = 0 ∧
    ∃ idx', idx.add_vectors m md = .ok idx' ∧
      idx'.vectors = idx.vectors ++ normalize_vectors m.rows := by
  refine ⟨?_, normalizeVector_replicate_zero d, dot_replicate_zero d w, ?_⟩
  · intro hn
    simp [normalizeVector, hn]
  · exact ⟨_, add_vectors_ok idx m md hcols, rfl⟩

/-- Witness for C8 at the vector `[1]` (norm 1), the zero vector of length 2,
and the concrete batch `matA`. -/
theorem zero_vector_norm_safety_witness :
    l2norm [(1 : ℝ)] ≠ 0 ∧
    normalizeVector [(1 : ℝ)] = [(1 : ℝ)].map (fun x => x / l2norm [(1 : ℝ)]) ∧
    normalizeVector (List.replicate 2 (0 : ℝ)) = List.replicate 2 0 ∧
    dot (List.replicate 2 (0 : ℝ)) [5] = 0 ∧
    ∃ idx', (VectorIndex.init 1).add_vectors matA none = .ok idx' ∧
      idx'.vectors = (VectorIndex.init 1).vectors ++ normalize_vectors matA.rows := by
  have h1 : l2norm [(1 : ℝ)] ≠ 0 := by simp [l2norm, dot]
  obtain ⟨ha, hb, hc, hd⟩ :=
    zero_vector_norm_safety 2 [(1 : ℝ)] [5] (VectorIndex.init 1) matA none rfl
  exact ⟨h1, ha h1, hb, hc, hd⟩

/-! ### C6 -/

/-- C6 is refuted: `load` overwrites `self.dimension` with the value stored
in the metadata side-table when that file is present. A `VectorIndex`
constructed with dimension 3 has dimension 2 after loading a file pair whose
metadata file recorded dimension 2 — so the dimension is not fixed for the
lifetime of the instance. -/
theorem dimension_change_counterexample :
    ((VectorIndex.init 3).load ⟨some ⟨2, [[1, 0]]⟩, some ⟨2, [[]]⟩⟩).map
        VectorIndex.dimension = .ok 2 ∧
    (VectorIndex.init 3).dimension = 3 ∧ (2 : ℕ) ≠ 3 :=
  ⟨rfl, rfl, by decide⟩

/-- C6 (amended): the dimension is set at construction and preserved by
`add_vectors`; across `load` it is preserved exactly when the metadata
side-table file is absent, and otherwise it is overwritten with the
dimension recorded in that file. -/
theorem dimension_stability (d : ℕ) (idx idx' idx2 : VectorIndex) (disk : Disk)
    (m : NpMatrix) (md : Option (List Metadata)) :
    (VectorIndex.init d).dimension = d ∧
    (idx.add_vectors m md = .ok idx2 → idx2.dimension = idx.dimension) ∧
    (idx.load disk = .ok idx' → disk.metaFile = none →
      idx'.dimension = idx.dimension) ∧
    (∀ mf, idx.load disk = .ok idx' → disk.metaFile = some mf →
      idx'.dimension = mf.dimension) := by
  refine ⟨rfl, ?_, ?_, ?_⟩
  · intro h
    by_cases hc : m.ncols = idx.dimension
    · rw [add_vectors_ok idx m md hc] at h
      injection h with h2
      rw [← h2]
    · simp [VectorIndex.add_vectors, hc] at h
  · intro h hm
    unfold VectorIndex.load at h
    cases hf : disk.faissFile with
    | none => rw [hf] at h; cases h
    | some f =>
      rw [hf, hm] at h
      injection h with h2
      rw [← h2]
  · intro mf h hm
    unfold VectorIndex.load at h
    cases hf : disk.faissFile with
    | none => rw [hf] at h; cases h
    | some f =>
      rw [hf, hm] at h
      injection h with h2
      rw [← h2]

/-- Witness for C6 (amended): a metadata-less load preserves the dimension, a
load with a metadata file takes the file's dimension, and `add_vectors`
preserves the dimension. -/
theorem dimension_stability_witness :
    ((VectorIndex.init 2).load ⟨some ⟨2, [[1, 0]]⟩, none⟩ =
        .ok ⟨2, 2, [[1, 0]], []⟩) ∧
    ((⟨2, 2, [[1, 0]], []⟩ : VectorIndex).dimension = (VectorIndex.init 2).dimension) ∧
    ((VectorIndex.init 2).load ⟨some ⟨2, [[1, 0]]⟩, some ⟨5, [[]]⟩⟩ =
        .ok ⟨5, 2, [[1, 0]], [[]]⟩) ∧
    ((⟨5, 2, [[1, 0]], [[]]⟩ : VectorIndex).dimension = (5 : ℕ)) ∧
    ((VectorIndex.init 1).add_vectors matA none =
        .ok ⟨1, 1, normalize_vectors matA.rows, [[]]⟩) ∧
    ((⟨1, 1, normalize_vectors matA.rows, [[]]⟩ : VectorIndex).dimension =
        (VectorIndex.init 1).dimension) := by
  have hload1 : (VectorIndex.init 2).load ⟨some ⟨2, [[1, 0]]⟩, none⟩ =
      .ok ⟨2, 2, [[1, 0]], []⟩ := rfl
  have hload2 : (VectorIndex.init 2).load ⟨some ⟨2, [[1, 0]]⟩, some ⟨5, [[]]⟩⟩ =
      .ok ⟨5, 2, [[1, 0]], [[]]⟩ := rfl
  have hadd : (VectorIndex.init 1).add_vectors matA none =
      .ok ⟨1, 1, normalize_vectors matA.rows, [[]]⟩ := add_vectors_ok _ _ _ rfl
  refine ⟨hload1, ?_, hload2, ?_, hadd, ?_⟩
  · exact (dimension_stability 2 (VectorIndex.init 2) ⟨2, 2, [[1, 0]], []⟩
      (VectorIndex.init 2) ⟨some ⟨2, [[1, 0]]⟩, none⟩ matA none).2.2.1 hload1 rfl
  · exact (dimension_stability 2 (VectorIndex.init 2) ⟨5, 2, [[1, 0]], [[]]⟩
      (VectorIndex.init 2) ⟨some ⟨2, [[1, 0]]⟩, some ⟨5, [[]]⟩⟩ matA none).2.2.2
      ⟨5, [[]]⟩ hload2 rfl
  · exact (dimension_stability 1 (VectorIndex.init 1) (VectorIndex.init 1)
      ⟨1, 1, normalize_vectors matA.rows, [[]]⟩ ⟨none, none⟩ matA none).2.1 hadd

/-! ### Search lemmas -/

theorem search_length (idx : VectorIndex) (q : List ℝ) (k : ℤ) :
    (idx.search q k).length = min k.toNat idx.count := by
  unfold VectorIndex.search
  by_cases h : idx.count = 0
  · simp [h]
  · rw [if_neg h]
    unfold faissTopK
    rw [List.length_take,
      (List.perm_insertionSort (fun a b : ℕ × ℝ => b.2 ≤ a.2) _).length_eq,
      List.length_map, List.enum_length]
    have hcc : idx.vectors.length = idx.count := rfl
    rw [hcc]
    omega

theorem search_sorted (idx : VectorIndex) (q : List ℝ) (k : ℤ) :
    (idx.search q k).Sorted (fun a b : ℕ × ℝ => b.2 ≤ a.2) := by
  haveI ht : IsTotal (ℕ × ℝ) (fun a b : ℕ × ℝ => b.2 ≤ a.2) :=
    ⟨fun a b => le_total b.2 a.2⟩
  haveI htr : IsTrans (ℕ × ℝ) (fun a b : ℕ × ℝ => b.2 ≤ a.2) :=
    ⟨fun _ _ _ h1 h2 => le_trans h2 h1⟩
  unfold VectorIndex.search
  by_cases h : idx.count = 0
  · simp [h]
  · rw [if_neg h]
    unfold faissTopK
    exact List.Pairwise.sublist (List.take_sublist _ _)
      (List.sorted_insertionSort (fun a b : ℕ × ℝ => b.2 ≤ a.2) _)

theorem search_handle_lt (idx : VectorIndex) (q : List ℝ) (k : ℤ) :
    ∀ p ∈ idx.search q k, p.1 < idx.count := by
  intro p hp
  unfold VectorIndex.search at hp
  by_cases h : idx.count = 0
  · rw [if_pos h] at hp; cases hp
  · rw [if_neg h] at hp
    unfold faissTopK at hp
    have hp2 := (List.take_sublist _ _).mem hp
    have hp3 := (List.perm_insertionSort (fun a b : ℕ × ℝ => b.2 ≤ a.2) _).mem_iff.mp hp2
    obtain ⟨x, hx, rfl⟩ := List.mem_map.mp hp3
    have hfst : x.1 ∈ List.map Prod.fst idx.vectors.enum :=
      List.mem_map_of_mem Prod.fst hx
    rw [List.enum_map_fst] at hfst
    exact List.mem_range.mp hfst

/-- When every handle of the pair list is inside the metadata list, the
result-building loop succeeds and yields one result per pair. -/
theorem mergeResults_ok (metadata : List Metadata) :
    ∀ pairs : List (ℕ × ℝ), (∀ p ∈ pairs, p.1 < metadata.length) →
      ∃ rs : List SearchResult, mergeResults metadata pairs = .ok rs ∧
        rs.length = pairs.length := by
  intro pairs
  induction pairs with
  | nil => intro _; exact ⟨[], rfl, rfl⟩
  | cons p rest ih =>
    intro h
    have hp : p.1 < metadata.length := h p (by simp)
    obtain ⟨rs, hrs, hlen⟩ := ih (fun x hx => h x (by simp [hx]))
    cases hmd : metadata.get? p.1 with
    | none =>
      rw [List.get?_eq_none] at hmd
      exact absurd hp (by omega)
    | some md =>
      refine ⟨{ similarity := p.2, index := p.1, meta := md } :: rs, ?_, by simp [hlen]⟩
      unfold mergeResults
      rw [hmd, hrs]

/-- An empty metadata list makes the result-building loop fail on any
nonempty pair list. -/
theorem mergeResults_nil_error (p : ℕ × ℝ) (rest : List (ℕ × ℝ)) :
    mergeResults [] (p :: rest) = .error .indexError := by
  unfold mergeResults
  rfl

theorem swm_ok_of_aligned (idx : VectorIndex) (q : List ℝ) (k : ℤ)
    (hinv : idx.metadata.length = idx.count) :
    ∃ rs : List SearchResult, idx.search_with_metadata q k = .ok rs ∧
      rs.length = (idx.search q k).length := by
  unfold VectorIndex.search_with_metadata
  obtain ⟨rs, hrs, hlen⟩ := mergeResults_ok idx.metadata (idx.search q k)
    (fun p hp => by rw [hinv]; exact search_handle_lt idx q k p hp)
  exact ⟨rs, hrs, hlen.symm ▸ hlen⟩

theorem swm_empty_metadata (idx : VectorIndex) (q : List ℝ) (k : ℤ)
    (hmeta : idx.metadata = []) (hcount : 0 < idx.count) (hk : 1 ≤ k) :
    idx.search_with_metadata q k = .error .indexError := by
  have hlen : (idx.search q k).length = min k.toNat idx.count := search_length idx q k
  have hpos : 0 < (idx.search q k).length := by rw [hlen]; omega
  unfold VectorIndex.search_with_metadata
  cases hs : idx.search q k with
  | nil => rw [hs] at hpos; cases hpos
  | cons p rest =>
    rw [hmeta]
    exact mergeResults_nil_error p rest

/-! ### C2 -/

/-- C2: `search` returns `(handle, similarity)` pairs sorted descending by
similarity; the result length is `min k count` (with `k` clamped at 0), the
empty index gives the empty result, `k ≤ 0` gives the empty result, and
every returned handle is a valid position below `count`. -/
theorem search_result_shape (idx : VectorIndex) (q : List ℝ) (k : ℤ) :
    (idx.search q k).length = min k.toNat idx.count ∧
    (idx.count = 0 → idx.search q k = []) ∧
    (k ≤ 0 → idx.search q k = []) ∧
    (idx.search q k).Sorted (fun a b : ℕ × ℝ => b.2 ≤ a.2) ∧
    ∀ p ∈ idx.search q k, p.1 < idx.count := by
  refine ⟨search_length idx q k, ?_, ?_, search_sorted idx q k, search_handle_lt idx q k⟩
  · intro h
    simp [VectorIndex.search, h]
  · intro hk
    refine List.length_eq_zero.mp ?_
    rw [search_length idx q k]
    omega

/-- Witness for C2 on the fresh (empty) index with `k = 0`. -/
theorem search_result_shape_witness :
    ((VectorIndex.init 1).search [] 0).length =
      min (0 : ℤ).toNat (VectorIndex.init 1).count ∧
    (VectorIndex.init 1).count = 0 ∧
    (VectorIndex.init 1).search [] 0 = [] ∧
    ((VectorIndex.init 1).search [] 0).Sorted (fun a b : ℕ × ℝ => b.2 ≤ a.2) ∧
    ∀ p ∈ (VectorIndex.init 1).search [] 0, p.1 < (VectorIndex.init 1).count := by
  obtain ⟨h1, h2, h3, h4, h5⟩ := search_result_shape (VectorIndex.init 1) [] 0
  exact ⟨h1, rfl, h3 (le_refl 0), h4, h5⟩

/-! ### C5 -/

/-- C5 is refuted in its metadata-defaulting part: loading a vector blob with
no metadata side-table succeeds but leaves the metadata list empty (it is not
defaulted to one empty record per handle), so `search_with_metadata` on the
loaded one-vector index raises `IndexError` instead of working on the
vector-only state. -/
theorem load_metadata_counterexample :
    (VectorIndex.init 2).load ⟨some ⟨2, [[1, 0]]⟩, none⟩ =
      .ok ⟨2, 2, [[1, 0]], []⟩ ∧
    (⟨2, 2, [[1, 0]], []⟩ : VectorIndex).search_with_metadata [1, 0] 1 =
      .error .indexError := by
  refine ⟨rfl, swm_empty_metadata _ _ _ rfl ?_ ?_⟩
  · show 0 < 1
    decide
  · decide

/-- C5 (amended): `load` fails with `FileNotFoundError` when the vector blob
is absent; a missing metadata side-table is non-fatal — `load` succeeds —
but the metadata list is left unchanged rather than defaulted per handle, so
on a fresh instance it stays empty and a subsequent `search_with_metadata`
over a nonempty loaded index raises `IndexError` instead of returning empty
metadata. -/
theorem load_failure_policy (idx : VectorIndex) (disk : Disk) (f : FaissFile)
    (q : List ℝ) (k : ℤ) :
    (disk.faissFile = none → idx.load disk = .error .fileNotFoundError) ∧
    (disk.faissFile = some f → disk.metaFile = none →
      idx.load disk = .ok { idx with indexDim := f.d, vectors := f.vecs }) ∧
    (idx.metadata = [] → f.vecs ≠ [] → 1 ≤ k →
      VectorIndex.search_with_metadata
        { idx with indexDim := f.d, vectors := f.vecs } q k = .error .indexError) := by
  refine ⟨?_, ?_, ?_⟩
  · intro h
    unfold VectorIndex.load
    rw [h]
  · intro h1 h2
    unfold VectorIndex.load
    rw [h1, h2]
  · intro h1 h2 h3
    refine swm_empty_metadata _ q k h1 ?_ h3
    show 0 < f.vecs.length
    exact List.length_pos.mpr h2

/-- Witness for C5 (amended) on a fresh 2-dimensional index and a one-vector
blob. -/
theorem load_failure_policy_witness :
    ((VectorIndex.init 2).load ⟨none, none⟩ = .error .fileNotFoundError) ∧
    ((VectorIndex.init 2).load ⟨some ⟨2, [[1, 0]]⟩, none⟩ =
      .ok { VectorIndex.init 2 with indexDim := 2, vectors := [[1, 0]] }) ∧
    (VectorIndex.search_with_metadata
      { VectorIndex.init 2 with indexDim := 2, vectors := [[1, 0]] } [1, 0] 1 =
      .error .indexError) := by
  obtain ⟨-, h2, h3⟩ := load_failure_policy (VectorIndex.init 2)
    ⟨some ⟨2, [[1, 0]]⟩, none⟩ ⟨2, [[1, 0]]⟩ [1, 0] 1
  refine ⟨?_, h2 rfl rfl, h3 rfl (by simp) (by decide)⟩
  exact (load_failure_policy (VectorIndex.init 2) ⟨none, none⟩
    ⟨2, [[1, 0]]⟩ [1, 0] 1).1 rfl

/-! ### C10 -/

/-- C10: the metadata list starts aligned with the vector count, every
`add_vectors` call whose metadata argument is omitted or has exactly one
entry per vector preserves the alignment, `add_vectors` never checks the
length of a provided metadata list (any list is accepted when the dimension
check passes), and under the alignment invariant every handle returned by
`search` is a valid position into the metadata list, so
`search_with_metadata` always succeeds. -/
theorem metadata_alignment (d : ℕ) (idx : VectorIndex) (m : NpMatrix)
    (md : Option (List Metadata)) (l : List Metadata) (q : List ℝ) (k : ℤ) :
    (VectorIndex.init d).metadata.length = (VectorIndex.init d).count ∧
    (idx.metadata.length = idx.count → m.ncols = idx.dimension →
      (md = none ∨ ∃ l2, md = some l2 ∧ l2.length = m.rows.length) →
      ∃ idx', idx.add_vectors m md = .ok idx' ∧
        idx'.metadata.length = idx'.count) ∧
    (m.ncols = idx.dimension → ∃ idx', idx.add_vectors m (some l) = .ok idx') ∧
    (idx.metadata.length = idx.count →
      ∀ p ∈ idx.search q k, p.1 < idx.metadata.length) ∧
    (idx.metadata.length = idx.count →
      ∃ rs : List SearchResult, idx.search_with_metadata q k = .ok rs) := by
  refine ⟨rfl, ?_, ?_, ?_, ?_⟩
  · intro hinv hc hmd
    refine ⟨_, add_vectors_ok idx m md hc, ?_⟩
    rcases hmd with h | ⟨l2, h, hlen⟩ <;> subst h
    · simp [VectorIndex.count, normalize_vectors_length, hinv]
    · by_cases hz : l2 = []
      · subst hz
        simp [VectorIndex.count, normalize_vectors_length, hinv, ← hlen]
      · simp [VectorIndex.count, normalize_vectors_length, hinv, hz, hlen]
  · intro hc
    exact ⟨_, add_vectors_ok idx m (some l) hc⟩
  · intro hinv p hp
    rw [hinv]
    exact search_handle_lt idx q k p hp
  · intro hinv
    obtain ⟨rs, hrs, -⟩ := swm_ok_of_aligned idx q k hinv
    exact ⟨rs, hrs⟩

/-- Witness for C10 on a one-vector index with aligned metadata. -/
theorem metadata_alignment_witness :
    ((VectorIndex.init 1).metadata.length = (VectorIndex.init 1).count) ∧
    (∃ idx', (⟨1, 1, [[1]], [[]]⟩ : VectorIndex).add_vectors matB
        (some [[], []]) = .ok idx' ∧ idx'.metadata.length = idx'.count) ∧
    (∃ idx', (⟨1, 1, [[1]], [[]]⟩ : VectorIndex).add_vectors matB
        (some [[("a", "b")]]) = .ok idx') ∧
    (∀ p ∈ (⟨1, 1, [[1]], [[]]⟩ : VectorIndex).search [1] 1,
      p.1 < (⟨1, 1, [[1]], [[]]⟩ : VectorIndex).metadata.length) ∧
    (∃ rs, (⟨1, 1, [[1]], [[]]⟩ : VectorIndex).search_with_metadata [1] 1 = .ok rs) := by
  obtain ⟨-, h2, h3, h4, h5⟩ := metadata_alignment 1 ⟨1, 1, [[1]], [[]]⟩ matB
    (some [[], []]) [[("a", "b")]] [1] 1
  exact ⟨(metadata_alignment 1 ⟨1, 1, [[1]], [[]]⟩ matB none [] [1] 1).1,
    h2 rfl rfl (Or.inr ⟨[[], []], rfl, rfl⟩), h3 rfl, h4 rfl, h5 rfl⟩

/-! ### C4 -/

/-- Evaluation of `SearchEngine.search` when retrieval succeeds. -/
theorem search_engine_eval (eng : SearchEngine) (query : String) (k : ℤ)
    (ms : ℝ) (results : List SearchResult)
    (h : eng.index.search_with_metadata (eng.generator.encode_text query) k =
      .ok results) :
    eng.search query k ms =
      .ok (if 0 < ms then results.filter (fun r => ms ≤ r.similarity)
           else results) := by
  unfold SearchEngine.search
  rw [h]

/-- Evaluation of `SearchEngine.search` when retrieval fails. -/
theorem search_engine_eval_error (eng : SearchEngine) (query : String) (k : ℤ)
    (ms : ℝ) (e : PyError)
    (h : eng.index.search_with_metadata (eng.generator.encode_text query) k =
      .error e) :
    eng.search query k ms = .error e := by
  unfold SearchEngine.search
  rw [h]

/-- A successful result-building loop yields one result per pair. -/
theorem mergeResults_length (metadata : List Metadata) :
    ∀ (pairs : List (ℕ × ℝ)) (rs : List SearchResult),
      mergeResults metadata pairs = .ok rs → rs.length = pairs.length := by
  intro pairs
  induction pairs with
  | nil =>
    intro rs h
    injection h with h2
    rw [← h2]
    rfl
  | cons p rest ih =>
    intro rs h
    unfold mergeResults at h
    cases hmd : metadata.get? p.1 with
    | none => rw [hmd] at h; cases h
    | some md =>
      rw [hmd] at h
      cases hrec : mergeResults metadata rest with
      | error e => rw [hrec] at h; cases h
      | ok rs2 =>
        rw [hrec] at h
        injection h with h2
        rw [← h2]
        simp [ih rs2 hrec]

theorem dot_pair (a b x y : ℝ) : dot [a, b] [x, y] = a * x + b * y := by
  simp [dot]

theorem l2norm_unit_x : l2norm [(1 : ℝ), 0] = 1 := by
  simp [l2norm, dot]

theorem normalizeVector_unit_x : normalizeVector [(1 : ℝ), 0] = [1, 0] := by
  simp [normalizeVector, l2norm_unit_x]

/-- The concrete one-vector index used around C4: one stored unit-norm
vector `[-1, 0]` with one empty metadata record. -/
def idxNeg : VectorIndex := ⟨2, 2, [[-1, 0]], [[]]⟩

/-- The concrete search engine used around C4: the external model embeds
every string to `[1, 0]`, so the query is at cosine similarity −1 from the
stored vector. -/
def engNeg : SearchEngine := ⟨⟨2, fun _ => [1, 0]⟩, idxNeg⟩

theorem idxNeg_search : idxNeg.search [1, 0] 1 = [(0, -1)] := by
  show [((0 : ℕ), dot (normalizeVector [1, 0]) [-1, 0])] = [((0 : ℕ), (-1 : ℝ))]
  rw [normalizeVector_unit_x]
  norm_num [dot]

theorem idxNeg_swm : idxNeg.search_with_metadata [1, 0] 1 =
    .ok [{ similarity := -1, index := 0, meta := [] }] := by
  unfold VectorIndex.search_with_metadata
  rw [idxNeg_search]
  rfl

theorem engNeg_encode : engNeg.generator.encode_text "q" = [1, 0] := rfl

theorem engNeg_swm : engNeg.index.search_with_metadata
    (engNeg.generator.encode_text "q") 1 =
    .ok [{ similarity := -1, index := 0, meta := [] }] := by
  rw [engNeg_encode]
  exact idxNeg_swm

/-- C4 is refuted at the default threshold: with `min_similarity = 0` the
filtering branch is skipped entirely, so a retrieved entry whose similarity
is −1 < 0 = `minSimilarity` is returned instead of being filtered out. -/
theorem threshold_default_counterexample :
    engNeg.search "q" 1 0 = .ok [{ similarity := -1, index := 0, meta := [] }] ∧
    ((-1 : ℝ) < 0) := by
  refine ⟨?_, by norm_num⟩
  rw [search_engine_eval engNeg "q" 1 0 _ engNeg_swm]
  simp

/-- C4 (amended): `SearchEngine.search` filters only when
`min_similarity > 0`; in that case it returns exactly the retrieved entries
with `similarity ≥ min_similarity` (every returned entry meets the
threshold). When `min_similarity ≤ 0` — the default 0 included — no
filtering is applied, so entries with similarity below the threshold (only
possible for negative similarities) can be returned. In every case the
result comes from the single `k`-limited retrieval, never backfilled, so it
has at most `min k count` entries. -/
theorem threshold_filtering (eng : SearchEngine) (query : String) (k : ℤ)
    (ms : ℝ) :
    (0 < ms → ∀ results, eng.index.search_with_metadata
        (eng.generator.encode_text query) k = .ok results →
      eng.search query k ms = .ok (results.filter (fun r => ms ≤ r.similarity))) ∧
    (0 < ms → ∀ rs, eng.search query k ms = .ok rs →
      ∀ r ∈ rs, ms ≤ r.similarity) ∧
    (ms ≤ 0 → eng.search query k ms =
      eng.index.search_with_metadata (eng.generator.encode_text query) k) ∧
    (∀ rs, eng.search query k ms = .ok rs →
      rs.length ≤ min k.toNat eng.index.count) := by
  refine ⟨?_, ?_, ?_, ?_⟩
  · intro hms results hswm
    rw [search_engine_eval eng query k ms results hswm, if_pos hms]
  · intro hms rs hsearch r hr
    cases hswm : eng.index.search_with_metadata (eng.generator.encode_text query) k with
    | error e => rw [search_engine_eval_error eng query k ms e hswm] at hsearch; cases hsearch
    | ok results =>
      rw [search_engine_eval eng query k ms results hswm, if_pos hms] at hsearch
      injection hsearch with h2
      rw [← h2] at hr
      have hmem := List.mem_filter.mp hr
      simpa using hmem.2
  · intro hms
    cases hswm : eng.index.search_with_metadata (eng.generator.encode_text query) k with
    | error e => rw [search_engine_eval_error eng query k ms e hswm]
    | ok results =>
      rw [search_engine_eval eng query k ms results hswm,
        if_neg (not_lt.mpr hms)]
  · intro rs hsearch
    cases hswm : eng.index.search_with_metadata (eng.generator.encode_text query) k with
    | error e => rw [search_engine_eval_error eng query k ms e hswm] at hsearch; cases hsearch
    | ok results =>
      rw [search_engine_eval eng query k ms results hswm] at hsearch
      injection hsearch with h2
      have hlen : results.length = min k.toNat eng.index.count := by
        have h3 : mergeResults eng.index.metadata
            (eng.index.search (eng.generator.encode_text query) k) = .ok results := hswm
        rw [mergeResults_length _ _ _ h3]
        exact search_length _ _ _
      rw [← h2, ← hlen]
      split
      · exact List.length_filter_le _ _
      · exact le_refl _

/-- Witness for C4 (amended) on the concrete engine `engNeg`, at thresholds
1 (filtering removes the similarity −1 entry) and 0 (no filtering). -/
theorem threshold_filtering_witness :
    ((0 : ℝ) < 1 ∧ engNeg.search "q" 1 1 = .ok []) ∧
    (∀ r ∈ ([] : List SearchResult), (1 : ℝ) ≤ r.similarity) ∧
    ((0 : ℝ) ≤ 0 ∧ engNeg.search "q" 1 0 =
      engNeg.index.search_with_metadata (engNeg.generator.encode_text "q") 1) ∧
    ([] : List SearchResult).length ≤ min (1 : ℤ).toNat engNeg.index.count := by
  have hfil : [({ similarity := -1, index := 0, meta := [] } : SearchResult)].filter
      (fun r => (1 : ℝ) ≤ r.similarity) = [] := by
    simp [List.filter]
    norm_num
  have h1 : engNeg.search "q" 1 1 = .ok [] := by
    have := (threshold_filtering engNeg "q" 1 1).1 (by norm_num) _ engNeg_swm
    rw [hfil] at this
    exact this
  refine ⟨⟨by norm_num, h1⟩, ?_, ?_, ?_⟩
  · exact (threshold_filtering engNeg "q" 1 1).2.1 (by norm_num) [] h1
  · exact ⟨le_refl 0, (threshold_filtering engNeg "q" 1 0).2.2.1 (le_refl 0)⟩
  · exact (threshold_filtering engNeg "q" 1 1).2.2.2 [] h1

/-! ### C9 -/

theorem scatter_length (l : List (ℕ × List ℝ)) :
    ∀ base : List (List ℝ), (scatter base l).length = base.length := by
  induction l with
  | nil => intro base; rfl
  | cons p rest ih =>
    intro base
    show (scatter (base.set p.1 p.2) rest).length = base.length
    rw [ih (base.set p.1 p.2), List.length_set]

theorem scatter_get_not_mem (j : ℕ) :
    ∀ (l : List (ℕ × List ℝ)) (base : List (List ℝ)),
      (∀ p ∈ l, p.1 ≠ j) → (scatter base l)[j]? = base[j]? := by
  intro l
  induction l with
  | nil => intro base _; rfl
  | cons p rest ih =>
    intro base h
    show (scatter (base.set p.1 p.2) rest)[j]? = base[j]?
    rw [ih (base.set p.1 p.2) (fun x hx => h x (by simp [hx])),
      List.getElem?_set_ne (h p (by simp))]

theorem scatter_get_map (f : ℕ → List ℝ) :
    ∀ (is : List ℕ) (base : List (List ℝ)) (j : ℕ), is.Nodup → j ∈ is →
      j < base.length →
      (scatter base (is.map (fun i => (i, f i))))[j]? = some (f j) := by
  intro is
  induction is with
  | nil => intro base j _ hj _; cases hj
  | cons i rest ih =>
    intro base j hnd hj hlen
    show (scatter (base.set i (f i)) (rest.map fun i => (i, f i)))[j]? = some (f j)
    rcases List.mem_cons.mp hj with rfl | hj2
    · have hnotin : j ∉ rest := (List.nodup_cons.mp hnd).1
      rw [scatter_get_not_mem j (rest.map fun i => (i, f i)) _ ?_,
        List.getElem?_set_self hlen]
      intro p hp
      obtain ⟨x, hx, rfl⟩ := List.mem_map.mp hp
      exact fun he => hnotin (he ▸ hx)
    · exact ih (base.set i (f i)) j (List.nodup_cons.mp hnd).2 hj2
        (by rwa [List.length_set])

theorem mem_valid_indices (texts : List String) (j : ℕ) :
    j ∈ valid_indices texts ↔
      ∃ t, texts[j]? = some t ∧ isBlankText t = false := by
  unfold valid_indices
  constructor
  · intro h
    obtain ⟨p, hp, rfl⟩ := List.mem_map.mp h
    obtain ⟨hpe, hpf⟩ := List.mem_filter.mp hp
    refine ⟨p.2, List.mem_enum_iff_getElem?.mp hpe, by simpa using hpf⟩
  · rintro ⟨t, ht, hb⟩
    refine List.mem_map.mpr ⟨(j, t), List.mem_filter.mpr ⟨?_, ?_⟩, rfl⟩
    · exact List.mem_enum_iff_getElem?.mpr ht
    · simpa using hb

theorem valid_indices_nodup (texts : List String) : (valid_indices texts).Nodup := by
  unfold valid_indices
  have hn : ((texts.enum).map Prod.fst).Nodup := by
    rw [List.enum_map_fst]
    exact List.nodup_range _
  exact hn.sublist ((List.filter_sublist _).map Prod.fst)

theorem zip_self_map (is : List ℕ) (f : ℕ → List ℝ) :
    is.zip (is.map f) = is.map (fun i => (i, f i)) := by
  have h1 : is.zip (is.map f) = (is.map id).zip (is.map f) := by
    rw [List.map_id]
  rw [h1, List.zip_map' id f is]
  rfl

theorem encode_batch_assignments (g : EmbeddingsGenerator) (texts : List String) :
    (valid_indices texts).zip ((valid_texts texts).map g.model) =
      (valid_indices texts).map (fun i => (i, g.model (texts.getD i ""))) := by
  unfold valid_texts
  rw [List.map_map]
  exact zip_self_map (valid_indices texts) (fun i => g.model (texts.getD i ""))

/-- Position `j` of the texts list is blank when it contributes no valid
index. -/
theorem blank_of_not_valid (texts : List String) (j : ℕ) (hj : j < texts.length)
    (h : j ∉ valid_indices texts) : isBlankText (texts.getD j "") = true := by
  have ht : texts[j]? = some texts[j] := List.getElem?_eq_getElem hj
  have hd : texts.getD j "" = texts[j] := by
    rw [List.getD_eq_getElem?_getD, ht]
    rfl
  rw [hd]
  by_contra hb
  exact h ((mem_valid_indices texts j).mpr
    ⟨texts[j], ht, by simpa using hb⟩)

/-- C9: `encode_text` maps every blank (empty or whitespace-only) text to
the all-zero vector of the model dimension; `encode_batch` returns exactly
one row per input text, and the row at each position `j` is
`encode_text` of the text at position `j` — the zero vector for blank
elements and the model embedding, index-aligned, for non-blank elements. -/
theorem zero_text_embedding (g : EmbeddingsGenerator) (t : String)
    (texts : List String) (j : ℕ) :
    (isBlankText t = true → g.encode_text t = List.replicate g.embedding_dim 0) ∧
    (g.encode_batch texts).length = texts.length ∧
    (j < texts.length →
      (g.encode_batch texts)[j]? = some (g.encode_text (texts.getD j ""))) := by
  refine ⟨?_, ?_, ?_⟩
  · intro h
    simp [EmbeddingsGenerator.encode_text, h]
  · unfold EmbeddingsGenerator.encode_batch
    by_cases htexts : texts = []
    · rw [if_pos htexts, htexts]
      rfl
    · rw [if_neg htexts]
      by_cases hall : valid_texts texts = []
      · rw [if_pos hall, List.length_replicate]
      · rw [if_neg hall, scatter_length, List.length_replicate]
  · intro hj
    by_cases htexts : texts = []
    · subst htexts
      simp at hj
    · unfold EmbeddingsGenerator.encode_batch
      rw [if_neg htexts]
      by_cases hall : valid_texts texts = []
      · rw [if_pos hall]
        have hnv : j ∉ valid_indices texts := by
          intro hmem
          have : valid_indices texts = [] := List.map_eq_nil_iff.mp hall
          rw [this] at hmem
          cases hmem
        have hblank := blank_of_not_valid texts j hj hnv
        rw [List.getElem?_replicate, if_pos hj]
        unfold EmbeddingsGenerator.encode_text
        rw [if_pos hblank]
      · rw [if_neg hall, encode_batch_assignments]
        by_cases hmem : j ∈ valid_indices texts
        · rw [scatter_get_map (fun i => g.model (texts.getD i ""))
            (valid_indices texts) _ j (valid_indices_nodup texts) hmem
            (by rw [List.length_replicate]; exact hj)]
          obtain ⟨tv, htv, hbv⟩ := (mem_valid_indices texts j).mp hmem
          have hd : texts.getD j "" = tv := by
            rw [List.getD_eq_getElem?_getD, htv]
            rfl
          rw [hd]
          simp [EmbeddingsGenerator.encode_text, hbv]
        · rw [scatter_get_not_mem j _ _ ?_, List.getElem?_replicate, if_pos hj]
          · have hblank := blank_of_not_valid texts j hj hmem
            unfold EmbeddingsGenerator.encode_text
            rw [if_pos hblank]
          · intro p hp
            obtain ⟨x, hx, rfl⟩ := List.mem_map.mp hp
            exact fun he => hmem (he ▸ hx)

/-- Witness for C9 on the batch `["a", " "]` (one non-blank and one
whitespace-only text) under a model that embeds every string to `[1, 0]`. -/
theorem zero_text_embedding_witness :
    (isBlankText " " = true ∧
      EmbeddingsGenerator.encode_text ⟨2, fun _ => [1, 0]⟩ " " =
        List.replicate 2 0) ∧
    (EmbeddingsGenerator.encode_batch ⟨2, fun _ => [1, 0]⟩ ["a", " "]).length =
      (["a", " "] : List String).length ∧
    ((0 : ℕ) < (["a", " "] : List String).length ∧
      (EmbeddingsGenerator.encode_batch ⟨2, fun _ => [1, 0]⟩ ["a", " "])[0]? =
        some (EmbeddingsGenerator.encode_text ⟨2, fun _ => [1, 0]⟩
          ((["a", " "] : List String).getD 0 ""))) ∧
    ((1 : ℕ) < (["a", " "] : List String).length ∧
      (EmbeddingsGenerator.encode_batch ⟨2, fun _ => [1, 0]⟩ ["a", " "])[1]? =
        some (EmbeddingsGenerator.encode_text ⟨2, fun _ => [1, 0]⟩
          ((["a", " "] : List String).getD 1 ""))) := by
  obtain ⟨h1, h2, h3⟩ :=
    zero_text_embedding ⟨2, fun _ => [1, 0]⟩ " " ["a", " "] 0
  refine ⟨⟨by decide, h1 (by decide)⟩, h2, ⟨by decide, h3 (by decide)⟩, ⟨by decide, ?_⟩⟩
  exact (zero_text_embedding ⟨2, fun _ => [1, 0]⟩ " " ["a", " "] 1).2.2 (by decide)

/-! ### C3 -/

theorem chunkLoop_step (words : List String) (csize step i : ℕ)
    (h1 : 0 < step) (h2 : i < words.length) :
    chunkLoop words csize step i =
      (if joinSpace ((words.drop i).take csize) ≠ "" then
        [joinSpace ((words.drop i).take csize)] else []) ++
      chunkLoop words csize step (i + step) := by
  rw [chunkLoop, dif_pos ⟨h1, h2⟩]

theorem chunkLoop_stop (words : List String) (csize step i : ℕ)
    (h : ¬(0 < step ∧ i < words.length)) :
    chunkLoop words csize step i = [] := by
  rw [chunkLoop, dif_neg h]

theorem chunkWindows_step (len csize step i : ℕ) (h1 : 0 < step) (h2 : i < len) :
    chunkWindows len csize step i =
      (i, min (i + csize) len) :: chunkWindows len csize step (i + step) := by
  rw [chunkWindows, dif_pos ⟨h1, h2⟩]

theorem chunkWindows_stop (len csize step i : ℕ) (h : ¬(0 < step ∧ i < len)) :
    chunkWindows len csize step i = [] := by
  rw [chunkWindows, dif_neg h]

theorem string_length_pos (s : String) (h : s ≠ "") : 0 < s.length := by
  rcases hs : s.data with _ | ⟨c, cs⟩
  · exact absurd (String.ext_iff.mpr (by rw [hs])) h
  · show 0 < s.data.length
    rw [hs]
    simp

theorem intercalate_go_ne_empty (s : String) :
    ∀ (as : List String) (acc : String), acc ≠ "" →
      String.intercalate.go acc s as ≠ "" := by
  intro as
  induction as with
  | nil => intro acc h; exact h
  | cons a rest ih =>
    intro acc h
    show String.intercalate.go (acc ++ s ++ a) s rest ≠ ""
    apply ih
    intro he
    have hl : 0 < (acc ++ s ++ a).length := by
      rw [String.length_append, String.length_append]
      have := string_length_pos acc h
      omega
    rw [he] at hl
    exact absurd hl (by decide)

theorem joinSpace_ne_empty (w : String) (rest : List String) (hw : w ≠ "") :
    joinSpace (w :: rest) ≠ "" := by
  show String.intercalate.go w " " rest ≠ ""
  exact intercalate_go_ne_empty " " rest w hw

/-- Any word window starting inside the list joins to a non-empty chunk
string, provided the words themselves are non-empty. -/
theorem chunk_slice_ne_empty (words : List String) (hne : ∀ w ∈ words, w ≠ "")
    (i csize : ℕ) (hi : i < words.length) (hc : 0 < csize) :
    joinSpace ((words.drop i).take csize) ≠ "" := by
  have hlen : 0 < ((words.drop i).take csize).length := by
    rw [List.length_take, List.length_drop]
    omega
  cases hs : (words.drop i).take csize with
  | nil => rw [hs] at hlen; cases hlen
  | cons w rest =>
    apply joinSpace_ne_empty
    apply hne
    have hwmem : w ∈ (words.drop i).take csize := by
      rw [hs]
      simp
    exact (List.drop_sublist i words).mem ((List.take_sublist csize _).mem hwmem)

theorem pySplit_ne_empty (text : String) : ∀ w ∈ pySplit text, w ≠ "" := by
  intro w hw
  simpa using (List.mem_filter.mp hw).2

set_option maxRecDepth 10000 in
/-- C3: on a text of exactly 1000 words, `chunk_text` with
`chunk_size = 500`, `overlap = 50` (stride 450) emits exactly the three
word windows `[0, 500)`, `[450, 950)`, `[900, 1000)` — the final one
shorter — joined with spaces; those windows cover every word position at
least once, and consecutive windows share exactly 50 positions at each
boundary (`[450, 500)` and `[900, 950)`). -/
theorem chunking_coverage (words : List String) (text : String)
    (h1000 : words.length = 1000) (hne : ∀ w ∈ words, w ≠ "") :
    chunkLoop words 500 450 0 =
      [joinSpace (words.take 500),
       joinSpace ((words.drop 450).take 500),
       joinSpace ((words.drop 900).take 500)] ∧
    chunkWindows 1000 500 450 0 = [(0, 500), (450, 950), (900, 1000)] ∧
    (∀ p, p < 1000 → ∃ w ∈ chunkWindows 1000 500 450 0, w.1 ≤ p ∧ p < w.2) ∧
    ((List.range 1000).filter
      (fun p => (0 ≤ p ∧ p < 500) ∧ (450 ≤ p ∧ p < 950))).length = 50 ∧
    ((List.range 1000).filter
      (fun p => (450 ≤ p ∧ p < 950) ∧ (900 ≤ p ∧ p < 1000))).length = 50 ∧
    chunk_text text 500 50 = chunkLoop (pySplit text) 500 450 0 ∧
    (∀ w ∈ pySplit text, w ≠ "") := by
  have hwin : chunkWindows 1000 500 450 0 = [(0, 500), (450, 950), (900, 1000)] := by
    rw [chunkWindows_step 1000 500 450 0 (by norm_num) (by norm_num),
      chunkWindows_step 1000 500 450 450 (by norm_num) (by norm_num),
      chunkWindows_step 1000 500 450 900 (by norm_num) (by norm_num),
      chunkWindows_stop 1000 500 450 1350 (by norm_num)]
    norm_num
  refine ⟨?_, hwin, ?_, by decide, by decide, rfl, pySplit_ne_empty text⟩
  · rw [chunkLoop_step words 500 450 0 (by norm_num) (by omega),
      chunkLoop_step words 500 450 450 (by norm_num) (by omega),
      chunkLoop_step words 500 450 900 (by norm_num) (by omega),
      chunkLoop_stop words 500 450 1350 (by omega)]
    rw [if_pos (chunk_slice_ne_empty words hne 0 500 (by omega) (by norm_num)),
      if_pos (chunk_slice_ne_empty words hne 450 500 (by omega) (by norm_num)),
      if_pos (chunk_slice_ne_empty words hne 900 500 (by omega) (by norm_num))]
    simp
  · intro p hp
    rw [hwin]
    by_cases hp1 : p < 500
    · exact ⟨(0, 500), by simp, by omega⟩
    · by_cases hp2 : p < 950
      · exact ⟨(450, 950), by simp, by omega⟩
      · exact ⟨(900, 1000), by simp, by omega⟩

set_option maxRecDepth 10000 in
/-- Witness for C3 on a concrete 1000-word text. -/
theorem chunking_coverage_witness :
    (List.replicate 1000 "w").length = 1000 ∧
    (chunkLoop (List.replicate 1000 "w") 500 450 0 =
      [joinSpace ((List.replicate 1000 "w").take 500),
       joinSpace (((List.replicate 1000 "w").drop 450).take 500),
       joinSpace (((List.replicate 1000 "w").drop 900).take 500)] ∧
    chunkWindows 1000 500 450 0 = [(0, 500), (450, 950), (900, 1000)] ∧
    (∀ p, p < 1000 → ∃ w ∈ chunkWindows 1000 500 450 0, w.1 ≤ p ∧ p < w.2) ∧
    ((List.range 1000).filter
      (fun p => (0 ≤ p ∧ p < 500) ∧ (450 ≤ p ∧ p < 950))).length = 50 ∧
    ((List.range 1000).filter
      (fun p => (450 ≤ p ∧ p < 950) ∧ (900 ≤ p ∧ p < 1000))).length = 50 ∧
    chunk_text "x" 500 50 = chunkLoop (pySplit "x") 500 450 0 ∧
    (∀ w ∈ pySplit "x", w ≠ "")) := by
  refine ⟨by simp, chunking_coverage (List.replicate 1000 "w") "x" (by simp) ?_⟩
  intro w hw
  rw [List.eq_of_mem_replicate hw]
  decide

end CalibreLib
